import Mathlib

/-!
Verification of the cascading stream-deletion engine of Pryv.io open source
(`components/api-server/src/methods/streams.js`, DELETION section).

The embedding models the stream/event collections as in-memory lists and the
MongoDB queries/updates issued by the deletion pipeline as pure list
transformations:

* a query `{streamIds: {$in: cl}}` on an array field matches a record when at
  least one of its `streamIds` elements lies in `cl`;
* `{headId: {$exists: false}}` matches records whose `headId` is `none`;
* `{$pull: {streamIds: {$in: cl}}}` removes from `streamIds` every element in
  `cl`;
* the positional update `{'streamIds.$': parentId}` (source comment: "set
  first element only (not multi)") replaces the first `streamIds` element that
  matched the query's `$in` clause with `parentId`;
* the storage-level `events.delete(user, filter, deletionMode)` turns every
  matching record into a deletion record (its implementation lives outside the
  provided sources); it is modelled as removing the matched records from the
  live collection — matched records cease to be live events.

An `Except.error` outcome of an operation models the source aborting its
`async.series` before any write: all steps preceding the two validation checks
are reads, so an error result leaves the collections untouched, which the
`Except` encoding expresses by carrying no successor state.
-/

namespace Pryv

/-- A stream document: `{id, parentId (nullable), name, trashed}`.
`trashed` is `none` when the attribute is unset (the source tests it with
`== null`). Tracking properties (`modified`, `modifiedBy`) are omitted: no
deletion-pipeline decision reads them. -/
structure Stream where
  id : String
  parentId : Option String := none
  name : String := ""
  trashed : Option Bool := none
deriving Repr, DecidableEq

/-- An event record. A record with `headId = some i` is a historical version
row of the live event whose id is `i`. `attachments` abstracts the
`attachments: {$exists: true}` test; `content` and `modifiedBy` stand for the
content fields and the author/timestamp attribution fields respectively. -/
structure Event where
  id : String
  streamIds : List String
  headId : Option String := none
  attachments : Bool := false
  content : Option String := none
  modifiedBy : Option String := none
deriving Repr, DecidableEq

/-- The per-tenant storage state: the streams and events collections. -/
structure State where
  streams : List Stream
  events : List Event
deriving Repr, DecidableEq

/-- The `versioning` configuration: `deletionMode` of `auditSettings`. -/
inductive DeletionMode
  | keepEverything
  | keepAuthors
  | keepNothing
deriving Repr, DecidableEq

/-- Children of a stream id in the flat parent-pointer collection. -/
def childrenOf (streams : List Stream) (pid : String) : List Stream :=
  streams.filter (fun s => s.parentId = some pid)

/-- `treeUtils.collectPluckFromRootItem(streamToDelete, 'id')`: the stream id
followed by all descendant ids, depth first. Recursion is bounded by a fuel
argument (the forest invariant makes `streams.length` sufficient). -/
def collectIdsFuel (streams : List Stream) : Nat → String → List String
  | 0, sid => [sid]
  | n + 1, sid =>
      sid :: ((childrenOf streams sid).map (fun c =>
        collectIdsFuel streams n c.id)).flatten

/-- The closure set of the deletion: the deleted stream id plus every
descendant id (`streamAndDescendantIds` in the source). -/
def streamAndDescendantIds (streams : List Stream) (sid : String) : List String :=
  collectIdsFuel streams streams.length sid

/-- `treeUtils.findById`: the first stream document with the given id. -/
def findStreamById (streams : List Stream) (sid : String) : Option Stream :=
  streams.find? (fun s => s.id = sid)

/-- Source helper `arrayAIsIncludedInB`: every element of `a` occurs in `b`. -/
def arrayAIsIncludedInB (a b : List String) : Bool :=
  a.all (fun i => b.contains i)

/-- MongoDB `{streamIds: {$in: cl}}` on the array field: at least one
membership lies in `cl`. -/
def memberIn (ids cl : List String) : Bool :=
  ids.any (fun s => cl.contains s)

/-- The limit-1 existence probe of `checkIfRootStreamAndLinkedEventsExist`:
does any record reference the closure set? -/
def hasLinkedEvents (cl : List String) (events : List Event) : Bool :=
  events.any (fun e => memberIn e.streamIds cl)

/-- The history copy written by `generateLogIfNecessary`: the original id is
discarded (`insertOne` assigns a fresh storage id, modelled as `id ++ ".v"`),
`headId` is set to the live event's id, all other fields are copied. -/
def versionCopy (e : Event) : Event :=
  { e with headId := some e.id, id := e.id ++ ".v" }

/-- `generateLogIfNecessary`: when `auditSettings.forceKeepHistory` is set,
insert a history copy of every record matching `{streamIds: {$in: cl}}` (the
source query carries no `headId` clause). Existing records are not modified. -/
def generateLogIfNecessary (forceKeepHistory : Bool) (cl : List String)
    (events : List Event) : List Event :=
  if forceKeepHistory then
    events ++ (events.filter (fun e => memberIn e.streamIds cl)).map versionCopy
  else events

/-- The positional update `{'streamIds.$': parentId}`: replace the first
element that matched the `$in: cl` clause of the query with `p`. -/
def setFirstIn (cl : List String) (p : String) : List String → List String
  | [] => []
  | s :: rest =>
      if cl.contains s then p :: rest else s :: setFirstIn cl p rest

/-- `addParentStreamIdIfNeeded` (merge path), per record: the filter
`{streamIds: {$ne: parentId, $in: cl}, headId: {$exists: false}}` selects live
records not already containing the parent id with some membership in the
closure; the positional update replaces their first closure membership with
the parent id. The `none` parent case is unreachable on the merge path (the
root-merge check errors first). -/
def addParentStreamIdIfNeeded (cl : List String) (parentId : Option String)
    (e : Event) : Event :=
  match parentId with
  | none => e
  | some p =>
      if e.headId = none ∧ e.streamIds.contains p = false ∧
          memberIn e.streamIds cl = true then
        { e with streamIds := setFirstIn cl p e.streamIds }
      else e

/-- `removeStreamdIds` (merge path) and the per-record update of
`removeStreamdIdsFromAllEvents` (detach path): on live records matching the
`$in` filter, `{$pull: {streamIds: {$in: cl}}}` removes every closure-set
membership. -/
def removeStreamdIds (cl : List String) (e : Event) : Event :=
  if e.headId = none ∧ memberIn e.streamIds cl = true then
    { e with streamIds := e.streamIds.filter (fun s => cl.contains s = false) }
  else e

/-- Modelled from the spec: `userEventsStorage.minimizeEventsHistory` (storage
layer, not among the provided sources) rewrites the history rows of a given
head so that they "retain only author/timestamp attribution fields, dropping
content": content fields are cleared, attribution (`modifiedBy`) is kept. -/
def minimizeEvent (h : Event) : Event :=
  { h with content := none }

/-- Under `keep-authors`, `handleHistory` streams every record matching
`{streamIds: {$in: cl}}` and minimizes the history of each: a row is
minimized when its `headId` points at some matched record. -/
def minimizeTriggered (cl : List String) (events : List Event) (h : Event) : Bool :=
  events.any (fun r => memberIn r.streamIds cl && h.headId == some r.id)

/-- Under `keep-nothing`, `handleHistory` streams every record matching
`{streamIds: {$in: cl}}`; records that still have memberships outside the
closure (`streamIds.length > 1` and not all included) are skipped, otherwise
`removeMany {headId: record.id}` deletes the record's history rows. -/
def historyRemovalTriggered (cl : List String) (events : List Event)
    (h : Event) : Bool :=
  events.any (fun r =>
    memberIn r.streamIds cl &&
    !(decide (r.streamIds.length > 1) && !arrayAIsIncludedInB r.streamIds cl) &&
    h.headId == some r.id)

/-- The `handleHistory` sub-step of the detach path, branching on the
deletion mode. -/
def handleHistory (mode : DeletionMode) (cl : List String)
    (events : List Event) : List Event :=
  match mode with
  | .keepEverything => events
  | .keepAuthors =>
      events.map (fun h =>
        if minimizeTriggered cl events h then minimizeEvent h else h)
  | .keepNothing =>
      events.filter (fun h => !historyRemovalTriggered cl events h)

/-- `deleteEventsWithAttachments`: the ids for which
`userEventFilesStorage.removeAllForEvent` is invoked — records matching
`{streamIds: {$in: cl}, attachments: {$exists: true}}` that are not skipped by
the still-attached-elsewhere condition. The event collection itself is not
modified by this sub-step. -/
def attachmentDeletionCalls (cl : List String) (events : List Event) : List String :=
  (events.filter (fun e =>
    memberIn e.streamIds cl && e.attachments &&
    !(decide (e.streamIds.length > 1) && !arrayAIsIncludedInB e.streamIds cl))).map
    Event.id

/-- `removeStreamdIdsFromAllEvents`: a no-op under `keep-everything`,
otherwise the closure-membership pull over live records. -/
def removeStreamdIdsFromAllEvents (mode : DeletionMode) (cl : List String)
    (events : List Event) : List Event :=
  if mode = .keepEverything then events
  else events.map (removeStreamdIds cl)

/-- The filter built by `deleteEvents`: always `{headId: {$exists: false}}`;
under `keep-everything` additionally `{streamIds: {$in: cl}}` ("they still
have all their streamIds"), otherwise `{streamIds: []}` ("their streamIds
were removed by removeStreamdIdsFromAllEvents()"). -/
def deleteEventsFilter (mode : DeletionMode) (cl : List String) (e : Event) : Bool :=
  e.headId == none &&
    (if mode = .keepEverything then memberIn e.streamIds cl
     else e.streamIds == ([] : List String))

/-- The `deleteEvents` sub-step: matched records are turned into deletion
records by the storage layer (see the file header) — they leave the live
collection. -/
def deleteEvents (mode : DeletionMode) (cl : List String)
    (events : List Event) : List Event :=
  events.filter (fun e => !deleteEventsFilter mode cl e)

/-- `deleteStreams`: remove every stream document of the closure set. -/
def deleteStreams (cl : List String) (streams : List Stream) : List Stream :=
  streams.filter (fun s => cl.contains s.id = false)

/-- The detach path's effect on the events collection:
`handleHistory`, then `removeStreamdIdsFromAllEvents`, then `deleteEvents`
(`deleteEventsWithAttachments` runs in between but does not modify records). -/
def detachEvents (mode : DeletionMode) (cl : List String)
    (events : List Event) : List Event :=
  deleteEvents mode cl
    (removeStreamdIdsFromAllEvents mode cl (handleHistory mode cl events))

/-- The attachment-removal invocations of the detach path (the scan runs on
the state left by `handleHistory`). -/
def detachCalls (mode : DeletionMode) (cl : List String)
    (events : List Event) : List String :=
  attachmentDeletionCalls cl (handleHistory mode cl events)

/-- The merge path's effect on the events collection: optional history
copies, then the positional parent insertion, then the closure-membership
pull. -/
def mergeEvents (forceKeepHistory : Bool) (cl : List String)
    (parentId : Option String) (events : List Event) : List Event :=
  ((generateLogIfNecessary forceKeepHistory cl events).map
    (addParentStreamIdIfNeeded cl parentId)).map (removeStreamdIds cl)

/-- The error taxonomy of the deletion pipeline. `missingDisposition` is
raised by the source through `errors.invalidParametersFormat` when linked
events exist and `mergeEventsWithParent` is missing; the spec names that
failure `MissingDisposition`. -/
inductive DeleteError
  | unknownResource
  | invalidOperation
  | missingDisposition
deriving Repr, DecidableEq

/-- The result payload: `{stream: <trashed record>}` after a soft delete,
`{streamDeletion: {id}}` after a hard delete. -/
inductive DeleteResult
  | trashedStream (s : Stream)
  | streamDeletion (id : String)
deriving Repr, DecidableEq

/-- Outcome of a successful delete: the new state, the result payload, the
attachment-removal invocations, and the attachment failures that were logged
(and only logged). -/
structure DeleteOutcome where
  state : State
  result : DeleteResult
  attachmentCalls : List String
  attachmentFailuresLogged : List String
deriving Repr, DecidableEq

/-- `deleteWithData`: the hard-deletion pipeline. `fail` is the oracle
telling which attachment removals fail; such failures are logged and do not
influence control flow (the source callback only calls
`errorHandling.logError`). -/
def deleteWithData (st : State) (targetId : String) (merge : Option Bool)
    (mode : DeletionMode) (forceKeepHistory : Bool) (fail : String → Bool) :
    Except DeleteError DeleteOutcome :=
  match findStreamById st.streams targetId with
  | none => .error .unknownResource
  | some streamToDelete =>
      let cl := streamAndDescendantIds st.streams targetId
      if merge = some true ∧ streamToDelete.parentId = none then
        .error .invalidOperation
      else if hasLinkedEvents cl st.events = true ∧ merge = none then
        .error .missingDisposition
      else if hasLinkedEvents cl st.events = true then
        if merge = some true then
          .ok { state := { streams := deleteStreams cl st.streams,
                           events := mergeEvents forceKeepHistory cl
                             streamToDelete.parentId st.events },
                result := .streamDeletion targetId,
                attachmentCalls := [],
                attachmentFailuresLogged := [] }
        else
          .ok { state := { streams := deleteStreams cl st.streams,
                           events := detachEvents mode cl st.events },
                result := .streamDeletion targetId,
                attachmentCalls := detachCalls mode cl st.events,
                attachmentFailuresLogged :=
                  (detachCalls mode cl st.events).filter fail }
      else
        .ok { state := { streams := deleteStreams cl st.streams,
                         events := st.events },
              result := .streamDeletion targetId,
              attachmentCalls := [],
              attachmentFailuresLogged := [] }

/-- `flagAsTrashed`'s update of the streams collection: `updateOne` sets
`trashed: true` on the first document with the target id. -/
def setTrashed (s : Stream) : Stream :=
  { s with trashed := some true }

/-- Replace the first stream with the given id by its trashed version. -/
def flagFirst : List Stream → String → List Stream
  | [], _ => []
  | s :: rest, sid =>
      if s.id = sid then setTrashed s :: rest else s :: flagFirst rest sid

/-- `deleteStream` (the registered method body after existence and permission
checks): route to `flagAsTrashed` when `trashed == null`, otherwise to
`deleteWithData`. -/
def deleteStreamOp (st : State) (targetId : String) (merge : Option Bool)
    (mode : DeletionMode) (forceKeepHistory : Bool) (fail : String → Bool) :
    Except DeleteError DeleteOutcome :=
  match findStreamById st.streams targetId with
  | none => .error .unknownResource
  | some s =>
      if s.trashed = none then
        .ok { state := { streams := flagFirst st.streams targetId,
                         events := st.events },
              result := .trashedStream (setTrashed s),
              attachmentCalls := [],
              attachmentFailuresLogged := [] }
      else
        deleteWithData st targetId merge mode forceKeepHistory fail

/-- Projection dropping the logged attachment failures: everything of an
outcome the failure oracle may not influence. -/
def stripFailures (o : DeleteOutcome) : State × DeleteResult × List String :=
  (o.state, o.result, o.attachmentCalls)

/-! Concrete scenario data, following the spec scenarios: the tree
`"A" → "A/B"` and the tree `"work" → "work/sub"`. The deleted streams carry
`trashed := some true` (second delete call). -/

/-- Root stream `A`. -/
def streamA : Stream := { id := "A" }

/-- Child stream `A/B`, already trashed. -/
def streamAB : Stream := { id := "A/B", parentId := some "A", trashed := some true }

/-- Root stream `work`, already trashed. -/
def streamWork : Stream := { id := "work", trashed := some true }

/-- Child stream `work/sub`. -/
def streamWorkSub : Stream := { id := "work/sub", parentId := some "work" }

/-- Event attached to `work` only. -/
def eventE1 : Event := { id := "e1", streamIds := ["work"] }

/-- Event attached to `A/B` only. -/
def eventE2 : Event := { id := "e2", streamIds := ["A/B"] }

/-- Event attached to the outside stream `X` and to `A/B`. -/
def eventEX : Event := { id := "ex", streamIds := ["X", "A/B"] }

/-- Event attached to `X` and `A/B`, carrying attachments. -/
def eventEXAtt : Event := { id := "ex", streamIds := ["X", "A/B"], attachments := true }

/-- Event attached to `A/B` only, with content. -/
def eventE3 : Event := { id := "e3", streamIds := ["A/B"], content := some "x" }

/-- History row of `eventEX`. -/
def historyHX : Event :=
  { id := "hx", streamIds := ["A/B"], headId := some "ex", content := some "c" }

/-- History row of `eventE3`, with content and attribution. -/
def historyH3 : Event :=
  { id := "h3", streamIds := ["A/B"], headId := some "e3", content := some "y",
    modifiedBy := some "alice" }

/-- The `work` tree with one event on the root. -/
def stateWork : State := { streams := [streamWork, streamWorkSub], events := [eventE1] }

/-- The `A → A/B` tree with the partially linked event `eventEX`. -/
def stateAX : State := { streams := [streamA, streamAB], events := [eventEX] }

/-- The `A → A/B` tree with `eventE2` on `A/B`. -/
def stateA2 : State := { streams := [streamA, streamAB], events := [eventE2] }

/-- The `A → A/B` tree with the partially linked event and its history row. -/
def stateAXH : State := { streams := [streamA, streamAB], events := [eventEX, historyHX] }

/-- The `A → A/B` tree with the fully linked event `eventE3` and its history. -/
def stateA3H : State := { streams := [streamA, streamAB], events := [eventE3, historyH3] }

/-- The `A → A/B` tree with the partially linked attachment-carrying event. -/
def stateAXAtt : State := { streams := [streamA, streamAB], events := [eventEXAtt] }

/-- An attachment-failure oracle that never fails. -/
def noFail : String → Bool := fun _ => false

/-- The fully linked event `eventE3`, additionally carrying attachments. -/
def eventE3Att : Event := { eventE3 with attachments := true }

/-- The `A → A/B` tree with the attachment-carrying fully linked event. -/
def stateA3Att : State := { streams := [streamA, streamAB], events := [eventE3Att] }

/-- A stream whose `trashed` attribute is explicitly present with value
`false`. -/
def streamF : Stream := { id := "F", trashed := some false }

/-- A state holding only `streamF` and no event. -/
def stateF : State := { streams := [streamF], events := [] }

/-! Theorems. -/

/-- Claim C4: for every hard-delete request with `mergeEventsWithParent = true` on a
stream whose `parentId` is null (a root stream), the operation fails with
`InvalidOperation`; the check precedes every write, so no stream or event is
mutated (an error outcome carries no successor state). -/
theorem root_merge_rejected (st : State) (target : String) (s : Stream)
    (mode : DeletionMode) (fkh : Bool) (fail : String → Bool)
    (hfind : findStreamById st.streams target = some s)
    (hroot : s.parentId = none) :
    deleteWithData st target (some true) mode fkh fail =
      .error .invalidOperation := by
  simp [deleteWithData, hfind, hroot]

/-- Witness for `root_merge_rejected` on the `work` tree scenario. -/
theorem root_merge_rejected_witness :
    findStreamById stateWork.streams "work" = some streamWork ∧
      deleteWithData stateWork "work" (some true) .keepNothing false noFail =
        .error .invalidOperation :=
  ⟨by decide,
   root_merge_rejected stateWork "work" streamWork .keepNothing false noFail
     (by decide) rfl⟩

/-- Claim C3: for every hard-delete request, if at least one live event references a
stream of the closure set and `mergeEventsWithParent` is null, the operation
fails with `MissingDisposition`; the check precedes every write, so no stream
or event is mutated (an error outcome carries no successor state). -/
theorem missingDisposition_guard (st : State) (target : String) (s : Stream)
    (e : Event) (mode : DeletionMode) (fkh : Bool) (fail : String → Bool)
    (hfind : findStreamById st.streams target = some s)
    (he : e ∈ st.events) (_hlive : e.headId = none)
    (hmem : memberIn e.streamIds (streamAndDescendantIds st.streams target) = true) :
    deleteWithData st target none mode fkh fail =
      .error .missingDisposition := by
  have hl : hasLinkedEvents (streamAndDescendantIds st.streams target)
      st.events = true :=
    List.any_eq_true.mpr ⟨e, he, hmem⟩
  simp [deleteWithData, hfind, hl]

/-- Witness for `missingDisposition_guard` on the `work` tree scenario. -/
theorem missingDisposition_guard_witness :
    eventE1 ∈ stateWork.events ∧
      deleteWithData stateWork "work" none .keepNothing false noFail =
        .error .missingDisposition :=
  ⟨by decide,
   missingDisposition_guard stateWork "work" streamWork eventE1 .keepNothing
     false noFail (by decide) (by decide) rfl (by decide)⟩

/-- Claim C8: an event record with `headId` set (a historical version row) is never
modified by the membership-update steps: the merge path's positional parent
insertion and closure pull, and the detach path's closure pull, all filter on
`headId: {$exists: false}` and leave such a record unchanged; the history-copy
insertion of `generateLogIfNecessary` keeps every existing record in place,
unmodified. -/
theorem history_rows_never_mutated (cl : List String) (p : Option String)
    (e : Event) (hh : e.headId.isSome) :
    addParentStreamIdIfNeeded cl p e = e ∧
      removeStreamdIds cl e = e ∧
      (∀ mode es, e ∈ es → e ∈ removeStreamdIdsFromAllEvents mode cl es) ∧
      (∀ fkh es, e ∈ es → e ∈ generateLogIfNecessary fkh cl es) := by
  have hne : ¬ e.headId = none := by
    cases h : e.headId with
    | none => rw [h] at hh; exact absurd hh (by simp)
    | some v => simp
  have haddp : addParentStreamIdIfNeeded cl p e = e := by
    cases p with
    | none => rfl
    | some q =>
        simp only [addParentStreamIdIfNeeded]
        rw [if_neg (fun hcon => hne hcon.1)]
  have hrem : removeStreamdIds cl e = e := by
    simp only [removeStreamdIds]
    rw [if_neg (fun hcon => hne hcon.1)]
  refine ⟨haddp, hrem, ?_, ?_⟩
  · intro mode es hmem
    simp only [removeStreamdIdsFromAllEvents]
    split
    · exact hmem
    · exact List.mem_map.mpr ⟨e, hmem, hrem⟩
  · intro fkh es hmem
    simp only [generateLogIfNecessary]
    split
    · exact List.mem_append.mpr (Or.inl hmem)
    · exact hmem

/-- Witness for `history_rows_never_mutated` on the history row `historyH3`. -/
theorem history_rows_never_mutated_witness :
    historyH3.headId.isSome = true ∧
      addParentStreamIdIfNeeded ["A/B"] (some "A") historyH3 = historyH3 :=
  ⟨by decide,
   (history_rows_never_mutated ["A/B"] (some "A") historyH3 (by decide)).1⟩

/-- Claim C10: the hard-delete branch is selected whenever `trashed` is non-null
(the source tests `trashed == null`), not only when it is `true`: a stream
whose `trashed` attribute is present with value `false` skips the
trash-flagging phase and runs `deleteWithData`; when the disposition checks
pass, this permanently removes the stream and all its descendants. -/
theorem nonnull_trashed_selects_hard_delete (st : State) (target : String)
    (s : Stream) (merge : Option Bool) (mode : DeletionMode) (fkh : Bool)
    (fail : String → Bool)
    (hfind : findStreamById st.streams target = some s)
    (ht : s.trashed = some false) :
    deleteStreamOp st target merge mode fkh fail =
        deleteWithData st target merge mode fkh fail ∧
      ((hasLinkedEvents (streamAndDescendantIds st.streams target) st.events = true →
          merge ≠ none) →
        (merge = some true → s.parentId ≠ none) →
        (deleteStreamOp st target merge mode fkh fail).map
            (fun o => o.state.streams) =
          .ok (deleteStreams (streamAndDescendantIds st.streams target)
            st.streams)) := by
  have hroute : deleteStreamOp st target merge mode fkh fail =
      deleteWithData st target merge mode fkh fail := by
    simp [deleteStreamOp, hfind, ht]
  refine ⟨hroute, fun hmerge hparent => ?_⟩
  rw [hroute]
  have hnot1 : ¬ (merge = some true ∧ s.parentId = none) :=
    fun hcon => hparent hcon.1 hcon.2
  have hnot2 : ¬ (hasLinkedEvents (streamAndDescendantIds st.streams target)
      st.events = true ∧ merge = none) :=
    fun hcon => hmerge hcon.1 hcon.2
  simp only [deleteWithData, hfind]
  rw [if_neg hnot1, if_neg hnot2]
  by_cases hl : hasLinkedEvents (streamAndDescendantIds st.streams target)
      st.events = true
  · rw [if_pos hl]
    by_cases hm : merge = some true
    · rw [if_pos hm]; rfl
    · rw [if_neg hm]; rfl
  · rw [if_neg hl]; rfl

/-- Witness for `nonnull_trashed_selects_hard_delete` on a stream explicitly
trashed `false`. -/
theorem nonnull_trashed_selects_hard_delete_witness :
    findStreamById stateF.streams "F" = some streamF ∧
      deleteStreamOp stateF "F" (some false) .keepNothing false noFail =
        deleteWithData stateF "F" (some false) .keepNothing false noFail :=
  ⟨by decide,
   (nonnull_trashed_selects_hard_delete stateF "F" streamF (some false)
     .keepNothing false noFail (by decide) rfl).1⟩

/-- Claim C1 counterexample: under `keep-everything` with
`mergeEventsWithParent = false`, the live event `eventEX` has the outside
membership `"X"`, yet the operation deletes it: the `deleteEvents` filter is
`{streamIds: {$in: closure}}` (any membership, source line 684), not a
requirement that all memberships lie inside the closure. The final events
collection is empty, refuting "the event survives with its streamIds
unchanged". -/
theorem keepEverything_outside_membership_event_deleted_cex :
    (deleteStreamOp stateAX "A/B" (some false) .keepEverything false
        noFail).map (fun o => o.state.events) = .ok [] := rfl

/-- Claim C2 counterexample: merging `"A/B"` into `"A"` on the event with
`streamIds = ["X", "A/B"]` does not add the parent as the first element: the
positional update replaces the first closure membership, yielding
`["X", "A"]` — the parent sits after the untouched outside membership and the
array does not grow. -/
theorem merge_parent_not_first_element_cex :
    addParentStreamIdIfNeeded ["A/B"] (some "A") eventEX =
        { eventEX with streamIds := ["X", "A"] } ∧
      (deleteStreamOp stateAX "A/B" (some true) .keepNothing false noFail).map
        (fun o => o.state.events.map Event.streamIds) = .ok [["X", "A"]] :=
  ⟨rfl, rfl⟩

/-- Claim C5 counterexample: the stream `work` is already trashed, one live event
references it and `mergeEventsWithParent` is null — the second delete call
fails with `MissingDisposition` instead of removing `work` and its descendant
`work/sub`, refuting the unconditional "second delete call removes s and
every descendant". -/
theorem second_delete_blocked_by_missing_disposition_cex :
    streamWork.trashed = some true ∧
      deleteStreamOp stateWork "work" none .keepNothing false noFail =
        .error .missingDisposition :=
  ⟨rfl, rfl⟩

/-- Claim C6 counterexample: under `keep-nothing`, the history row `historyHX` of
the partially linked event `eventEX` survives the operation with its content
intact — the history-removal branch skips events that still have memberships
outside the closure, so history deletion is not unconditional for affected
events. -/
theorem keepNothing_partial_history_survives_cex :
    (deleteStreamOp stateAXH "A/B" (some false) .keepNothing false noFail).map
        (fun o => o.state.events) =
      .ok [{ eventEX with streamIds := ["X"] }, historyHX] := rfl

/-- Claim C9 counterexample: under `keep-everything`, the attachment-carrying event
`eventEXAtt` is selected for deletion (the final filter matches any closure
membership) but attachment removal is never invoked for it — the invocation
scan skips events with memberships outside the closure. -/
theorem keepEverything_attachment_removal_not_invoked_cex :
    (deleteStreamOp stateAXAtt "A/B" (some false) .keepEverything false
        noFail).map (fun o => (o.state.events, o.attachmentCalls)) =
      .ok ([], []) := rfl

/-- Every event of the collection fails the `$in` probe when the existence
probe fails. -/
theorem memberIn_false_of_not_linked (cl : List String) (events : List Event)
    (hl : ¬ hasLinkedEvents cl events = true) :
    ∀ e ∈ events, memberIn e.streamIds cl = false := by
  intro e he
  by_contra hcon
  exact hl (List.any_eq_true.mpr ⟨e, he, by
    cases hm : memberIn e.streamIds cl with
    | false => exact absurd hm hcon
    | true => rfl⟩)

/-- Claim C1 (amended): under `keep-everything` with `mergeEventsWithParent = false`
no closure-set membership is stripped, but the final deletion filter selects
every live event with at least one membership in the closure set (MongoDB
`$in`, not an all-memberships test): the operation removes exactly those live
events — including events that also have outside memberships — and every
survivor keeps its record byte-for-byte unchanged. -/
theorem keepEverything_detach_removes_any_linked_live_event
    (st : State) (target : String) (s : Stream) (fkh : Bool)
    (fail : String → Bool)
    (hfind : findStreamById st.streams target = some s) :
    deleteWithData st target (some false) .keepEverything fkh fail =
      .ok { state :=
              { streams :=
                  deleteStreams (streamAndDescendantIds st.streams target)
                    st.streams,
                events :=
                  st.events.filter (fun e =>
                    !(e.headId == none &&
                      memberIn e.streamIds
                        (streamAndDescendantIds st.streams target))) },
            result := .streamDeletion target,
            attachmentCalls :=
              attachmentDeletionCalls (streamAndDescendantIds st.streams target)
                st.events,
            attachmentFailuresLogged :=
              (attachmentDeletionCalls (streamAndDescendantIds st.streams target)
                st.events).filter fail } := by
  simp only [deleteWithData, hfind]
  rw [if_neg (by simp), if_neg (by simp)]
  by_cases hl : hasLinkedEvents (streamAndDescendantIds st.streams target)
      st.events = true
  · rw [if_pos hl, if_neg (by simp)]
    simp [detachEvents, detachCalls, handleHistory,
      removeStreamdIdsFromAllEvents, deleteEvents, deleteEventsFilter]
  · rw [if_neg hl]
    have hnone := memberIn_false_of_not_linked _ _ hl
    have hfilter : st.events.filter (fun e =>
        !(e.headId == none &&
          memberIn e.streamIds (streamAndDescendantIds st.streams target))) =
        st.events := by
      apply List.filter_eq_self.mpr
      intro e he
      simp [hnone e he]
    have hcalls : attachmentDeletionCalls
        (streamAndDescendantIds st.streams target) st.events = [] := by
      have hfe : st.events.filter (fun e =>
          memberIn e.streamIds (streamAndDescendantIds st.streams target) &&
          e.attachments &&
          !(decide (e.streamIds.length > 1) &&
            !arrayAIsIncludedInB e.streamIds
              (streamAndDescendantIds st.streams target))) = [] := by
        apply List.filter_eq_nil_iff.mpr
        intro e he
        simp [hnone e he]
      simp only [attachmentDeletionCalls, hfe, List.map_nil]
    rw [hfilter, hcalls]
    simp

/-- Witness for `keepEverything_detach_removes_any_linked_live_event` on the
partially linked event scenario. -/
theorem keepEverything_detach_removes_any_linked_live_event_witness :
    findStreamById stateAX.streams "A/B" = some streamAB ∧
      deleteWithData stateAX "A/B" (some false) .keepEverything false noFail =
        .ok { state :=
                { streams :=
                    deleteStreams (streamAndDescendantIds stateAX.streams "A/B")
                      stateAX.streams,
                  events :=
                    stateAX.events.filter (fun e =>
                      !(e.headId == none &&
                        memberIn e.streamIds
                          (streamAndDescendantIds stateAX.streams "A/B"))) },
              result := .streamDeletion "A/B",
              attachmentCalls :=
                attachmentDeletionCalls
                  (streamAndDescendantIds stateAX.streams "A/B") stateAX.events,
              attachmentFailuresLogged :=
                (attachmentDeletionCalls
                  (streamAndDescendantIds stateAX.streams "A/B")
                  stateAX.events).filter noFail } :=
  ⟨by decide,
   keepEverything_detach_removes_any_linked_live_event stateAX "A/B" streamAB
     false noFail (by decide)⟩

/-- Claim C7: under `keep-authors` with `mergeEventsWithParent = false`, for every
live event with any membership in the closure set (fully or partially
linked), each of its history rows survives the operation minimized: content
cleared, author/timestamp attribution kept. -/
theorem keepAuthors_minimizes_history (st : State) (target : String)
    (s : Stream) (e h : Event) (fkh : Bool) (fail : String → Bool)
    (hfind : findStreamById st.streams target = some s)
    (he : e ∈ st.events)
    (hmem : memberIn e.streamIds (streamAndDescendantIds st.streams target) = true)
    (hh : h ∈ st.events) (hhead : h.headId = some e.id) :
    (minimizeEvent h).content = none ∧
      (minimizeEvent h).modifiedBy = h.modifiedBy ∧
      ∃ o, deleteWithData st target (some false) .keepAuthors fkh fail =
          .ok o ∧ minimizeEvent h ∈ o.state.events := by
  refine ⟨rfl, rfl, ?_⟩
  have hl : hasLinkedEvents (streamAndDescendantIds st.streams target)
      st.events = true :=
    List.any_eq_true.mpr ⟨e, he, hmem⟩
  simp only [deleteWithData, hfind]
  rw [if_neg (by simp), if_neg (by simp), if_pos hl, if_neg (by simp)]
  refine ⟨_, rfl, ?_⟩
  have htrig : minimizeTriggered (streamAndDescendantIds st.streams target)
      st.events h = true :=
    List.any_eq_true.mpr ⟨e, he, by simp [hmem, hhead]⟩
  have hmin : minimizeEvent h ∈ handleHistory .keepAuthors
      (streamAndDescendantIds st.streams target) st.events := by
    simp only [handleHistory]
    exact List.mem_map.mpr ⟨h, hh, by rw [if_pos htrig]⟩
  have hstep2 : minimizeEvent h ∈ removeStreamdIdsFromAllEvents .keepAuthors
      (streamAndDescendantIds st.streams target)
      (handleHistory .keepAuthors (streamAndDescendantIds st.streams target)
        st.events) := by
    simp only [removeStreamdIdsFromAllEvents]
    rw [if_neg (by simp)]
    refine List.mem_map.mpr ⟨minimizeEvent h, hmin, ?_⟩
    simp only [removeStreamdIds]
    rw [if_neg (fun hcon => by
      have : h.headId = none := hcon.1
      rw [hhead] at this
      exact Option.noConfusion this)]
  simp only [detachEvents, deleteEvents]
  refine List.mem_filter.mpr ⟨hstep2, ?_⟩
  have : (minimizeEvent h).headId = some e.id := hhead
  simp [deleteEventsFilter, this]

/-- Witness for `keepAuthors_minimizes_history` on the fully linked event and
its authored history row. -/
theorem keepAuthors_minimizes_history_witness :
    historyH3.headId = some eventE3.id ∧
      (minimizeEvent historyH3).content = none ∧
      (minimizeEvent historyH3).modifiedBy = historyH3.modifiedBy ∧
      ∃ o, deleteWithData stateA3H "A/B" (some false) .keepAuthors false noFail =
          .ok o ∧ minimizeEvent historyH3 ∈ o.state.events :=
  ⟨by decide,
   keepAuthors_minimizes_history stateA3H "A/B" streamAB eventE3 historyH3
     false noFail (by decide) (by decide) (by decide) (by decide) (by decide)⟩

/-- Claim C5 (amended): `delete(streamId)` is two-phase. First call (trashed
unset): the stream is flagged `trashed = true`, the updated record is
returned, and no event is mutated. Second call (already trashed): the
operation proceeds to hard deletion, and — provided the disposition
validation passes (a disposition is supplied when linked events exist, and
merge-into-parent is not requested on a root) — the stream and every
descendant are removed from the tree. -/
theorem two_phase_delete :
    (∀ (st : State) (target : String) (s : Stream) (merge : Option Bool)
        (mode : DeletionMode) (fkh : Bool) (fail : String → Bool),
      findStreamById st.streams target = some s → s.trashed = none →
      deleteStreamOp st target merge mode fkh fail =
        .ok { state := { streams := flagFirst st.streams target,
                         events := st.events },
              result := .trashedStream (setTrashed s),
              attachmentCalls := [],
              attachmentFailuresLogged := [] }) ∧
    (∀ (st : State) (target : String) (s : Stream) (b : Bool)
        (merge : Option Bool) (mode : DeletionMode) (fkh : Bool)
        (fail : String → Bool),
      findStreamById st.streams target = some s → s.trashed = some b →
      (hasLinkedEvents (streamAndDescendantIds st.streams target) st.events =
          true → merge ≠ none) →
      (merge = some true → s.parentId ≠ none) →
      (deleteStreamOp st target merge mode fkh fail).map
          (fun o => (o.state.streams, o.result)) =
        .ok (deleteStreams (streamAndDescendantIds st.streams target)
              st.streams,
            .streamDeletion target)) := by
  constructor
  · intro st target s merge mode fkh fail hfind ht
    simp [deleteStreamOp, hfind, ht]
  · intro st target s b merge mode fkh fail hfind ht hmerge hparent
    have hroute : deleteStreamOp st target merge mode fkh fail =
        deleteWithData st target merge mode fkh fail := by
      simp [deleteStreamOp, hfind, ht]
    rw [hroute]
    have hnot1 : ¬ (merge = some true ∧ s.parentId = none) :=
      fun hcon => hparent hcon.1 hcon.2
    have hnot2 : ¬ (hasLinkedEvents (streamAndDescendantIds st.streams target)
        st.events = true ∧ merge = none) :=
      fun hcon => hmerge hcon.1 hcon.2
    simp only [deleteWithData, hfind]
    rw [if_neg hnot1, if_neg hnot2]
    by_cases hl : hasLinkedEvents (streamAndDescendantIds st.streams target)
        st.events = true
    · rw [if_pos hl]
      by_cases hm : merge = some true
      · rw [if_pos hm]; rfl
      · rw [if_neg hm]; rfl
    · rw [if_neg hl]; rfl

/-- Witness for `two_phase_delete`: the first call on an untrashed stream
soft-deletes, the second call on the trashed `A/B` (with a disposition
supplied) prunes the subtree. -/
theorem two_phase_delete_witness :
    deleteStreamOp { streams := [streamA], events := [] } "A" none
        .keepNothing false noFail =
      .ok { state := { streams := flagFirst [streamA] "A", events := [] },
            result := .trashedStream (setTrashed streamA),
            attachmentCalls := [],
            attachmentFailuresLogged := [] } ∧
      (deleteStreamOp stateA2 "A/B" (some false) .keepNothing false
          noFail).map (fun o => (o.state.streams, o.result)) =
        .ok (deleteStreams (streamAndDescendantIds stateA2.streams "A/B")
              stateA2.streams,
            .streamDeletion "A/B") :=
  ⟨two_phase_delete.1 { streams := [streamA], events := [] } "A" streamA none
     .keepNothing false noFail (by decide) rfl,
   two_phase_delete.2 stateA2 "A/B" streamAB true (some false) .keepNothing
     false noFail (by decide) (by decide) (fun _ hcon => Option.noConfusion hcon)
     (fun hcon => absurd hcon (by decide))⟩

/-- The positional update inserts `p` as soon as some element matches the
`$in` clause. -/
theorem p_mem_setFirstIn (cl : List String) (p : String) (l : List String)
    (hmem : memberIn l cl = true) : p ∈ setFirstIn cl p l := by
  induction l with
  | nil => simp [memberIn] at hmem
  | cons a rest ih =>
      by_cases ha : cl.contains a = true
      · simp only [setFirstIn]
        rw [if_pos ha]
        exact List.mem_cons_self p rest
      · have hmem2 : memberIn rest cl = true := by
          have := hmem
          simp only [memberIn, List.any_cons] at this
          rcases Bool.or_eq_true_iff.mp this with h | h
          · exact absurd h ha
          · exact h
        simp only [setFirstIn]
        rw [if_neg ha]
        exact List.mem_cons_of_mem a (ih hmem2)

/-- The positional update introduces no element besides `p`. -/
theorem mem_setFirstIn_elim (cl : List String) (p x : String) (l : List String)
    (hx : x ∈ setFirstIn cl p l) : x = p ∨ x ∈ l := by
  induction l with
  | nil => simp [setFirstIn] at hx
  | cons a rest ih =>
      by_cases ha : cl.contains a = true
      · simp only [setFirstIn] at hx
        rw [if_pos ha] at hx
        rcases List.mem_cons.mp hx with h | h
        · exact Or.inl h
        · exact Or.inr (List.mem_cons_of_mem a h)
      · simp only [setFirstIn] at hx
        rw [if_neg ha] at hx
        rcases List.mem_cons.mp hx with h | h
        · exact Or.inr (h ▸ List.mem_cons_self a rest)
        · rcases ih h with h2 | h2
          · exact Or.inl h2
          · exact Or.inr (List.mem_cons_of_mem a h2)

/-- The positional update only overwrites an element of the closure set:
elements outside the closure survive it. -/
theorem mem_setFirstIn_of_notin (cl : List String) (p x : String)
    (l : List String) (hx : x ∈ l) (hcx : cl.contains x = false) :
    x ∈ setFirstIn cl p l := by
  induction l with
  | nil => simp at hx
  | cons a rest ih =>
      by_cases ha : cl.contains a = true
      · simp only [setFirstIn]
        rw [if_pos ha]
        rcases List.mem_cons.mp hx with h | h
        · rw [h] at hcx
          rw [ha] at hcx
          exact absurd hcx (by simp)
        · exact List.mem_cons_of_mem p h
      · simp only [setFirstIn]
        rw [if_neg ha]
        rcases List.mem_cons.mp hx with h | h
        · exact h ▸ List.mem_cons_self a _
        · exact List.mem_cons_of_mem a (ih h)

/-- The `$pull` update of a live record amounts to filtering the closure ids
out of `streamIds`, whether or not the record matched the `$in` filter. -/
theorem removeStreamdIds_streamIds (cl : List String) (e : Event)
    (hhead : e.headId = none) :
    (removeStreamdIds cl e).streamIds =
      e.streamIds.filter (fun s => cl.contains s = false) := by
  by_cases hm : memberIn e.streamIds cl = true
  · simp only [removeStreamdIds]
    rw [if_pos ⟨hhead, hm⟩]
  · simp only [removeStreamdIds]
    rw [if_neg (fun hcon => hm hcon.2)]
    symm
    apply List.filter_eq_self.mpr
    intro a ha
    have hca : cl.contains a = false := by
      cases hc : cl.contains a with
      | false => rfl
      | true => exact absurd (List.any_eq_true.mpr ⟨a, ha, hc⟩) hm
    simpa using hca

/-- Claim C2 (amended): on the merge path, for every live event not already
containing the closure root's parent, the positional update makes the parent
id replace the event's first closure-set membership (it is not prepended as a
new first element); after the closure pull, the resulting membership set is
exactly the original memberships outside the closure plus the parent id. In
the concrete scenario of tree `A → A/B`, an event with
`streamIds = ["A/B"]` ends with `streamIds = ["A"]`. -/
theorem merge_replaces_first_closure_membership :
    (∀ (cl : List String) (p : String) (e : Event),
        e.headId = none → e.streamIds.contains p = false →
        memberIn e.streamIds cl = true → cl.contains p = false →
        ∀ x, (x ∈ (removeStreamdIds cl
            (addParentStreamIdIfNeeded cl (some p) e)).streamIds ↔
          (x = p ∨ (x ∈ e.streamIds ∧ cl.contains x = false)))) ∧
      (deleteStreamOp stateA2 "A/B" (some true) .keepNothing false noFail).map
        (fun o => o.state.events.map Event.streamIds) = .ok [["A"]] := by
  constructor
  · intro cl p e hhead hnp hmem hp x
    have haddp : addParentStreamIdIfNeeded cl (some p) e =
        { e with streamIds := setFirstIn cl p e.streamIds } := by
      simp only [addParentStreamIdIfNeeded]
      rw [if_pos ⟨hhead, hnp, hmem⟩]
    have hcomp : (removeStreamdIds cl
        (addParentStreamIdIfNeeded cl (some p) e)).streamIds =
        (setFirstIn cl p e.streamIds).filter (fun s => cl.contains s = false) := by
      rw [haddp]
      exact removeStreamdIds_streamIds cl
        { e with streamIds := setFirstIn cl p e.streamIds } hhead
    rw [hcomp]
    constructor
    · intro hxmem
      rcases List.mem_filter.mp hxmem with ⟨hxin, hxpred⟩
      have hcx : cl.contains x = false := by simpa using hxpred
      rcases mem_setFirstIn_elim cl p x e.streamIds hxin with h | h
      · exact Or.inl h
      · exact Or.inr ⟨h, hcx⟩
    · intro hx
      rcases hx with h | ⟨hxin, hcx⟩
      · subst h
        exact List.mem_filter.mpr
          ⟨p_mem_setFirstIn cl x e.streamIds hmem, by simpa using hp⟩
      · exact List.mem_filter.mpr
          ⟨mem_setFirstIn_of_notin cl p x e.streamIds hxin hcx,
           by simpa using hcx⟩
  · rfl

/-- Witness for `merge_replaces_first_closure_membership` on the
`streamIds = ["A/B"]` event merged into parent `A`. -/
theorem merge_replaces_first_closure_membership_witness :
    "A" ∈ (removeStreamdIds ["A/B"]
        (addParentStreamIdIfNeeded ["A/B"] (some "A") eventE2)).streamIds ↔
      ("A" = "A" ∨ ("A" ∈ eventE2.streamIds ∧
        (["A/B"] : List String).contains "A" = false)) :=
  merge_replaces_first_closure_membership.1 ["A/B"] "A" eventE2 rfl (by decide)
    (by decide) (by decide) "A"

/-- The `$pull` update never changes a record's id. -/
theorem removeStreamdIds_id (cl : List String) (e : Event) :
    (removeStreamdIds cl e).id = e.id := by
  simp only [removeStreamdIds]
  split <;> rfl

/-- The `$pull` update never changes a record's head reference. -/
theorem removeStreamdIds_headId (cl : List String) (e : Event) :
    (removeStreamdIds cl e).headId = e.headId := by
  simp only [removeStreamdIds]
  split <;> rfl

/-- Claim C6 (amended): under `keep-nothing` with `mergeEventsWithParent = false`,
history rows are deleted outright (never minimized) for the affected events
whose memberships all lie inside the closure set — history of partially
linked events is left untouched. For an event whose memberships are all
inside the closure set, the event itself and every history row referencing
it are removed: no record with its id or with a head reference to it
survives the operation. -/
theorem keepNothing_removes_fully_inside_event_and_history
    (st : State) (target : String) (s : Stream) (e : Event) (fkh : Bool)
    (fail : String → Bool)
    (hfind : findStreamById st.streams target = some s)
    (he : e ∈ st.events) (hlive : e.headId = none)
    (hne : e.streamIds ≠ [])
    (hall : arrayAIsIncludedInB e.streamIds
      (streamAndDescendantIds st.streams target) = true)
    (huniq : ∀ r ∈ st.events, r.id = e.id → r = e) :
    (deleteWithData st target (some false) .keepNothing fkh fail).map
        (fun o => o.state.events.filter (fun r =>
          r.id == e.id || r.headId == some e.id)) = .ok [] := by
  obtain ⟨a, ha⟩ := List.exists_mem_of_ne_nil e.streamIds hne
  have hca : (streamAndDescendantIds st.streams target).contains a = true :=
    List.all_eq_true.mp hall a ha
  have hmem : memberIn e.streamIds (streamAndDescendantIds st.streams target) =
      true :=
    List.any_eq_true.mpr ⟨a, ha, hca⟩
  have hl : hasLinkedEvents (streamAndDescendantIds st.streams target)
      st.events = true :=
    List.any_eq_true.mpr ⟨e, he, hmem⟩
  simp only [deleteWithData, hfind]
  rw [if_neg (by simp), if_neg (by simp), if_pos hl, if_neg (by simp)]
  simp only [Except.map]
  congr 1
  apply List.filter_eq_nil_iff.mpr
  intro r0 hr0
  have hr0m := hr0
  simp only [detachEvents, deleteEvents] at hr0m
  rcases List.mem_filter.mp hr0m with ⟨hr0mem, hr0f⟩
  have hunfold : removeStreamdIdsFromAllEvents .keepNothing
      (streamAndDescendantIds st.streams target)
      (handleHistory .keepNothing (streamAndDescendantIds st.streams target)
        st.events) =
      (handleHistory .keepNothing (streamAndDescendantIds st.streams target)
        st.events).map
        (removeStreamdIds (streamAndDescendantIds st.streams target)) := by
    simp [removeStreamdIdsFromAllEvents]
  rw [hunfold] at hr0mem
  rcases List.mem_map.mp hr0mem with ⟨r1, hr1mem, hr1eq⟩
  simp only [handleHistory] at hr1mem
  rcases List.mem_filter.mp hr1mem with ⟨hr1st, hr1nt⟩
  have hid : r0.id = r1.id := by
    rw [← hr1eq]
    exact removeStreamdIds_id _ r1
  have hh : r0.headId = r1.headId := by
    rw [← hr1eq]
    exact removeStreamdIds_headId _ r1
  intro hcontra
  rcases Bool.or_eq_true_iff.mp hcontra with hc | hc
  · -- a surviving record cannot carry the deleted event's id
    have hr1id : r1.id = e.id := by
      rw [← hid]
      exact beq_iff_eq.mp hc
    have hr1e : r1 = e := huniq r1 hr1st hr1id
    subst hr1e
    have hsids : r0.streamIds = [] := by
      rw [← hr1eq, removeStreamdIds_streamIds _ r1 hlive]
      apply List.filter_eq_nil_iff.mpr
      intro b hb
      have hcb := List.all_eq_true.mp hall b hb
      simpa using hcb
    have hr0h : r0.headId = none := by rw [hh, hlive]
    have : deleteEventsFilter .keepNothing
        (streamAndDescendantIds st.streams target) r0 = true := by
      simp [deleteEventsFilter, hr0h, hsids]
    rw [this] at hr0f
    exact Bool.noConfusion hr0f
  · -- a surviving record cannot be a history row of the deleted event
    have hr1h : r1.headId = some e.id := by
      rw [← hh]
      exact beq_iff_eq.mp hc
    have htrig : historyRemovalTriggered
        (streamAndDescendantIds st.streams target) st.events r1 = true :=
      List.any_eq_true.mpr ⟨e, he, by simp [hmem, hall, hr1h]⟩
    rw [htrig] at hr1nt
    exact Bool.noConfusion hr1nt

/-- Witness for `keepNothing_removes_fully_inside_event_and_history` on the
fully linked event `eventE3` with its history row. -/
theorem keepNothing_removes_fully_inside_event_and_history_witness :
    eventE3 ∈ stateA3H.events ∧
      (deleteWithData stateA3H "A/B" (some false) .keepNothing false
          noFail).map (fun o => o.state.events.filter (fun r =>
            r.id == eventE3.id || r.headId == some eventE3.id)) = .ok [] :=
  ⟨by decide,
   keepNothing_removes_fully_inside_event_and_history stateA3H "A/B" streamAB
     eventE3 false noFail (by decide) (by decide) rfl (by decide) (by decide)
     (by decide)⟩

/-- Claim C9 (amended): attachment removal is invoked for every live event carrying
attachments whose memberships all lie inside the closure set (under
`keep-everything`, events with outside memberships are deleted without any
attachment-removal invocation); and attachment-removal failures are logged
only — the outcome of the delete operation (final state, result payload and
invocation list, or error) is identical for every failure oracle, so a
failure never surfaces as an error and never prevents the event-deletion and
stream-pruning phases. -/
theorem attachment_removal_isolation :
    (∀ (st : State) (target : String) (s : Stream) (e : Event)
        (mode : DeletionMode) (fkh : Bool) (fail : String → Bool),
      findStreamById st.streams target = some s → e ∈ st.events →
      e.headId = none → e.attachments = true → e.streamIds ≠ [] →
      arrayAIsIncludedInB e.streamIds
        (streamAndDescendantIds st.streams target) = true →
      ∃ o, deleteWithData st target (some false) mode fkh fail = .ok o ∧
        e.id ∈ o.attachmentCalls) ∧
    (∀ (st : State) (target : String) (merge : Option Bool)
        (mode : DeletionMode) (fkh : Bool) (f g : String → Bool),
      (deleteWithData st target merge mode fkh f).map stripFailures =
        (deleteWithData st target merge mode fkh g).map stripFailures) := by
  constructor
  · intro st target s e mode fkh fail hfind he hlive hatt hne hall
    obtain ⟨a, ha⟩ := List.exists_mem_of_ne_nil e.streamIds hne
    have hca : (streamAndDescendantIds st.streams target).contains a = true :=
      List.all_eq_true.mp hall a ha
    have hmem : memberIn e.streamIds
        (streamAndDescendantIds st.streams target) = true :=
      List.any_eq_true.mpr ⟨a, ha, hca⟩
    have hl : hasLinkedEvents (streamAndDescendantIds st.streams target)
        st.events = true :=
      List.any_eq_true.mpr ⟨e, he, hmem⟩
    simp only [deleteWithData, hfind]
    rw [if_neg (by simp), if_neg (by simp), if_pos hl, if_neg (by simp)]
    refine ⟨_, rfl, ?_⟩
    have hmemh : e ∈ handleHistory mode
        (streamAndDescendantIds st.streams target) st.events := by
      cases mode with
      | keepEverything => exact he
      | keepAuthors =>
          simp only [handleHistory]
          refine List.mem_map.mpr ⟨e, he, ?_⟩
          rw [if_neg ?_]
          intro hcon
          rcases List.any_eq_true.mp hcon with ⟨r, _, hpred⟩
          rcases Bool.and_eq_true_iff.mp hpred with ⟨_, hbeq⟩
          rw [hlive] at hbeq
          exact Bool.noConfusion hbeq
      | keepNothing =>
          simp only [handleHistory]
          refine List.mem_filter.mpr ⟨he, ?_⟩
          cases htr : historyRemovalTriggered
              (streamAndDescendantIds st.streams target) st.events e with
          | false => rfl
          | true =>
              rcases List.any_eq_true.mp htr with ⟨r, _, hpred⟩
              rcases Bool.and_eq_true_iff.mp hpred with ⟨_, hbeq⟩
              rw [hlive] at hbeq
              exact Bool.noConfusion hbeq
    simp only [detachCalls, attachmentDeletionCalls]
    refine List.mem_map.mpr ⟨e, List.mem_filter.mpr ⟨hmemh, ?_⟩, rfl⟩
    simp [hmem, hatt, hall]
  · intro st target merge mode fkh f g
    cases hfs : findStreamById st.streams target with
    | none => simp only [deleteWithData, hfs]
    | some s =>
        simp only [deleteWithData, hfs]
        by_cases h1 : merge = some true ∧ s.parentId = none
        · rw [if_pos h1, if_pos h1]
        · rw [if_neg h1, if_neg h1]
          by_cases h2 : hasLinkedEvents
              (streamAndDescendantIds st.streams target) st.events = true ∧
              merge = none
          · rw [if_pos h2, if_pos h2]
          · rw [if_neg h2, if_neg h2]
            by_cases h3 : hasLinkedEvents
                (streamAndDescendantIds st.streams target) st.events = true
            · rw [if_pos h3, if_pos h3]
              by_cases h4 : merge = some true
              · rw [if_pos h4, if_pos h4]
              · rw [if_neg h4, if_neg h4]; rfl
            · rw [if_neg h3, if_neg h3]

/-- Witness for `attachment_removal_isolation`: the fully linked event
carrying attachments triggers an invocation, and two distinct failure
oracles give the same stripped outcome. -/
theorem attachment_removal_isolation_witness :
    (∃ o, deleteWithData stateA3Att "A/B" (some false) .keepNothing false
          noFail = .ok o ∧
        eventE3Att.id ∈ o.attachmentCalls) ∧
      (deleteWithData stateA3H "A/B" (some false) .keepNothing false
          noFail).map stripFailures =
        (deleteWithData stateA3H "A/B" (some false) .keepNothing false
          (fun _ => true)).map stripFailures :=
  ⟨attachment_removal_isolation.1 stateA3Att "A/B" streamAB eventE3Att
     .keepNothing false noFail (by decide) (by decide) rfl rfl (by decide)
     (by decide),
   attachment_removal_isolation.2 stateA3H "A/B" (some false) .keepNothing
     false noFail (fun _ => true)⟩

end Pryv
